import Mathlib

/-!
# Verification of the request-governance layer of the App Explorer API

This file gives a shallow embedding, in Lean 4, of the request-governance
subsystem implemented in `backend/app/main.py`:

* the per-(client, class) sliding-window rate limiter (`rate_limiter`),
* the metrics middleware (`timing_and_logging`) together with the
  `requests_total` counters and the `request_duration_ms` bounded deques,
* the conditional-cache check and header production of `list_apps`,
* the pagination-link construction (`_with_params` and the
  `total_pages` / `next_url` / `prev_url` logic of `list_apps`),
* the freshness marker `_db_mtime` and the HTTP-date formatting used for
  the `Last-Modified` header.

Timestamps are modelled as integers in an arbitrary tick unit (the Python
code uses `datetime` values with microsecond resolution; only ordering and
differences matter, so an integer tick is an order- and
difference-preserving model).  Dictionaries (`defaultdict`) are modelled as
total functions with explicit default values; Python `deque`s are Lean
lists with the head as the left (oldest) end.
-/

namespace AppExplorer

/-! ## Sliding-window rate limiter

The source (`main.py`, lines 77-92):

```
def rate_limiter(kind: str):
    limit = RATE_LIMIT_GET if kind == "GET" else RATE_LIMIT_WRITE
    window = timedelta(seconds=RATE_LIMIT_WINDOW_SECONDS)
    async def _inner(request):
        ip = _ip_from_request(request)
        key = (ip, kind)
        now = datetime.utcnow()
        q = hits[key]
        while q and (now - q[0]) > window:
            q.popleft()
        if len(q) >= limit:
            raise HTTPException(status_code=429, detail=...)
        q.append(now)
        return True
    return _inner
```
-/

/-- Result of one admission check: either the request is admitted, or an
HTTP error with a status code and detail string is raised
(`HTTPException(429, ...)` in the source). -/
inductive AdmitResult where
  | allowed : AdmitResult
  | rejected (status : Nat) (detail : String) : AdmitResult
deriving DecidableEq, Repr

/-- The eviction loop `while q and (now - q[0]) > window: q.popleft()`:
pop timestamps from the left end while they are strictly older than the
window. -/
def evict (now window : Int) (q : List Int) : List Int :=
  q.dropWhile (fun t => decide (now - t > window))

/-- The detail string of the 429 raised by `rate_limiter`
(`f"Rate limit exceeded ({kind.lower()}), try later"`). -/
def rateLimitDetail (kindLower : String) : String :=
  "Rate limit exceeded (" ++ kindLower ++ "), try later"

/-- One call of the `_inner` closure on the hit window of a single key:
evict old entries, reject with a 429 if the remaining count has reached
the limit, otherwise append `now` and allow. -/
def admitOne (limit : Nat) (window : Int) (kindLower : String) (now : Int)
    (q : List Int) : AdmitResult × List Int :=
  let q' := evict now window q
  if limit ≤ q'.length then
    (AdmitResult.rejected 429 (rateLimitDetail kindLower), q')
  else
    (AdmitResult.allowed, q' ++ [now])

/-- Run a sequence of admission calls at the given times, threading the
hit window of a single key. -/
def admitRun (limit : Nat) (window : Int) (kindLower : String) :
    List Int → List Int → List AdmitResult × List Int
  | q, [] => ([], q)
  | q, t :: ts =>
    let r := admitOne limit window kindLower t q
    let rest := admitRun limit window kindLower r.2 ts
    (r.1 :: rest.1, rest.2)

/-- The eviction rule as the specification words it: remove all entries
with `timestamp <= now - windowDuration` (so an entry exactly at the
boundary is evicted).  This is the spec's description, kept separate from
`evict`, which is translated from the source. -/
def evictClaimed (now window : Int) (q : List Int) : List Int :=
  q.filter (fun t => decide (¬ t ≤ now - window))

/-! ## The global hit store

`hits: Dict[Tuple[str, str], deque] = defaultdict(lambda: deque())` keyed
by `(ip, kind)`, modelled as a total function (the defaultdict's default
is the empty deque). -/

/-- The `hits` defaultdict: one window per `(ip, kind)` key. -/
abbrev HitsState := String × String → List Int

/-- Source line `limit = RATE_LIMIT_GET if kind == "GET" else RATE_LIMIT_WRITE`. -/
def limitFor (rlGet rlWrite : Nat) (kind : String) : Nat :=
  if kind = "GET" then rlGet else rlWrite

/-- One call of `rate_limiter(kind)`'s inner closure against the global
`hits` store: read the window at `(ip, kind)`, run the admission check and
write the updated window back at the same key. -/
def admitState (rlGet rlWrite : Nat) (window : Int) (st : HitsState)
    (ip kind : String) (now : Int) : AdmitResult × HitsState :=
  let key := (ip, kind)
  let r := admitOne (limitFor rlGet rlWrite kind) window kind.toLower now (st key)
  (r.1, fun k => if k = key then r.2 else st k)

/-- Run a sequence of admission calls `(ip, kind, now)` against the global
store, collecting the decisions. -/
def admitStateRun (rlGet rlWrite : Nat) (window : Int) :
    HitsState → List (String × String × Int) → List AdmitResult × HitsState
  | st, [] => ([], st)
  | st, c :: cs =>
    let r := admitState rlGet rlWrite window st c.1 c.2.1 c.2.2
    let rest := admitStateRun rlGet rlWrite window r.2 cs
    (r.1 :: rest.1, rest.2)

/-! ## Metrics store and the timing/logging middleware

The source (`main.py`):

```
requests_total: Dict[Tuple[str, str, int], int] = defaultdict(int)
request_duration_ms: Dict[Tuple[str, str], deque] = defaultdict(lambda: deque(maxlen=500))

@app.middleware("http")
async def timing_and_logging(request, call_next):
    t0 = time.perf_counter()
    method = request.method
    path = request.url.path
    try:
        response = await call_next(request)
        status = response.status_code
        return response
    except Exception as e:
        status = 500
        logger.exception(...)
        raise
    finally:
        dt_ms = (time.perf_counter() - t0) * 1000.0
        requests_total[(method, path, status)] += 1
        request_duration_ms[(method, path)].append(dt_ms)
        logger.info(...)
```

Durations are modelled as integers (their values never influence control
flow).  A response is modelled by its status code; an `HTTPException`
raised by a dependency (e.g. the 429 of the rate limiter) is converted by
the framework into an ordinary response before it reaches this middleware,
so it appears as a normal `Except.ok` outcome with its status. -/

/-- The two metric maps, modelled as total functions with the defaultdict
defaults (`0` and the empty deque). -/
structure Metrics where
  requestsTotal : String × String × Nat → Nat
  requestDurationMs : String × String → List Int

/-- Python `deque(maxlen=n).append`: append on the right, discarding from the
left once the length exceeds `n`. -/
def dequeAppend (maxlen : Nat) (q : List Int) (x : Int) : List Int :=
  (q ++ [x]).drop ((q ++ [x]).length - maxlen)

/-- The `finally` block of the middleware: bump the counter for
`(method, path, status)` and append the elapsed time to the bounded deque
for `(method, path)`. -/
def record (m : Metrics) (method path : String) (status : Nat)
    (dtMs : Int) : Metrics where
  requestsTotal := fun k =>
    if k = (method, path, status) then m.requestsTotal k + 1
    else m.requestsTotal k
  requestDurationMs := fun k =>
    if k = (method, path) then dequeAppend 500 (m.requestDurationMs k) dtMs
    else m.requestDurationMs k

/-- The middleware body: on a normal downstream outcome the response's
status is recorded and the response returned; on an unhandled exception
the sentinel status 500 is recorded and the original exception re-raised.
The `finally` recording happens on both paths. -/
def timing_and_logging {ε : Type} (m : Metrics) (method path : String)
    (outcome : Except ε Nat) (dtMs : Int) : Metrics × Except ε Nat :=
  match outcome with
  | Except.ok status => (record m method path status dtMs, Except.ok status)
  | Except.error e => (record m method path 500 dtMs, Except.error e)

/-- The possible per-request outcomes the middleware can observe for one
route: a normal response with some status, a rate-limited rejection (the
framework turns the limiter's `HTTPException(429)` into an ordinary 429
response before it reaches the middleware), or an unhandled exception from
the downstream handler. -/
inductive ReqOutcome where
  | success (status : Nat)
  | rateLimited
  | handlerRaised
deriving DecidableEq, Repr

/-- How a request outcome reaches the middleware. -/
def toOutcome : ReqOutcome → Except Unit Nat
  | ReqOutcome.success s => Except.ok s
  | ReqOutcome.rateLimited => Except.ok 429
  | ReqOutcome.handlerRaised => Except.error ()

/-- The status the middleware's `finally` block records for an outcome. -/
def recordedStatus : ReqOutcome → Nat
  | ReqOutcome.success s => s
  | ReqOutcome.rateLimited => 429
  | ReqOutcome.handlerRaised => 500

/-- Drive a sequence of requests for one `(method, path)` through the
middleware, threading the metrics store. -/
def runPipeline (m : Metrics) (method path : String) :
    List (ReqOutcome × Int) → Metrics
  | [] => m
  | r :: rs =>
    runPipeline
      (timing_and_logging m method path (toOutcome r.1) r.2).1 method path rs

/-- A metrics store with nothing recorded (the defaultdict defaults). -/
def emptyMetrics : Metrics := ⟨fun _ => 0, fun _ => []⟩

/-- A concrete mixed request sequence: a 200 success, an unhandled
failure, a rate-limited rejection and another 200 success, with their
elapsed times. -/
def sampleReqs : List (ReqOutcome × Int) :=
  [(ReqOutcome.success 200, 5), (ReqOutcome.handlerRaised, 7),
   (ReqOutcome.rateLimited, 1), (ReqOutcome.success 200, 2)]

/-! ## Conditional caching in `list_apps`

The source (`main.py`, lines 380-386):

```
inm = request.headers.get("if-none-match")
ims = request.headers.get("if-modified-since")
if inm == etag or (ims and ims == last_mod_http):
    resp = Response(status_code=304)
    resp.headers["ETag"] = etag
    resp.headers["Last-Modified"] = last_mod_http
    return resp
```

and on the miss path the full 200 response also carries both headers.
`headers.get` yields `None` for an absent header; Python string
truthiness makes an empty `ims` falsy. -/

/-- The `if inm == etag or (ims and ims == last_mod_http)` test. -/
def isNotModified (inm ims : Option String) (etag lastMod : String) :
    Bool :=
  decide (inm = some etag) ||
    (match ims with
     | some s => decide (¬ s = "") && decide (s = lastMod)
     | none => false)

/-- The observable part of the `list_apps` response relevant to caching:
status code, the two validator headers, and whether a body is present. -/
structure ListResponse where
  status : Nat
  etagHeader : Option String
  lastModifiedHeader : Option String
  hasBody : Bool
deriving DecidableEq, Repr

/-- The conditional part of `list_apps`: a bodyless 304 with both
validator headers on a hit, otherwise the full 200 response, also with
both headers. -/
def listAppsConditional (inm ims : Option String) (etag lastMod : String) :
    ListResponse :=
  if isNotModified inm ims etag lastMod then
    ⟨304, some etag, some lastMod, false⟩
  else
    ⟨200, some etag, some lastMod, true⟩

/-! ## Query-string rewriting (`_with_params`) and pagination links

The source (`main.py`, lines 333-342 and 396-399):

```
def _with_params(url: str, overrides: dict) -> str:
    scheme, netloc, path, query, frag = urlsplit(url)
    q = dict(parse_qsl(query, keep_blank_values=True))
    for k, v in overrides.items():
        if v is None:
            q.pop(k, None)
        else:
            q[k] = v
    new_q = urlencode(q, doseq=True)
    return urlunsplit((scheme, netloc, path, new_q, frag))

total_pages = max(1, (total + page_size - 1) // page_size)
next_url = _with_params(base_url, {"page": page + 1}) if page < total_pages else None
prev_url = _with_params(base_url, {"page": page - 1}) if page > 1 else None
```

`urlsplit`/`urlunsplit` pass the scheme, network location, path and
fragment through unchanged; only the query component is transformed, so
the embedding works directly on the query string.  `parse_qsl` and
`urlencode` (with `quote_via=quote_plus`, `safe=''`) are modelled down to
the byte level: percent-escapes decode to UTF-8 bytes, `+` means space,
and on output every byte outside CPython's always-safe set (ASCII
alphanumerics and `_.-~`) is escaped, with space becoming `+`. -/

/-- The value of a hexadecimal digit character, `none` otherwise. -/
def hexDigitVal (c : Char) : Option Nat :=
  if '0' ≤ c ∧ c ≤ '9' then some (c.toNat - 48)
  else if 'A' ≤ c ∧ c ≤ 'F' then some (c.toNat - 55)
  else if 'a' ≤ c ∧ c ≤ 'f' then some (c.toNat - 87)
  else none

/-- A UTF-8 continuation byte. -/
def isCont (b : UInt8) : Bool := 0x80 ≤ b.toNat && b.toNat ≤ 0xBF

/-- The U+FFFD replacement character (CPython decodes percent-escape
bytes with `errors="replace"`). -/
def replChar : Char := Char.ofNat 0xFFFD

/-- UTF-8 decoding with replacement on malformed sequences.  The fuel
argument (instantiated with the byte count) only makes the recursion
structural; every step consumes at least one byte. -/
def utf8DecodeAux : Nat → List UInt8 → List Char
  | 0, _ => []
  | _, [] => []
  | fuel + 1, b :: rest =>
    if b.toNat < 0x80 then Char.ofNat b.toNat :: utf8DecodeAux fuel rest
    else if 0xC2 ≤ b.toNat && b.toNat ≤ 0xDF then
      match rest with
      | b2 :: rest2 =>
        if isCont b2 then
          Char.ofNat ((b.toNat - 0xC0) * 64 + (b2.toNat - 0x80)) ::
            utf8DecodeAux fuel rest2
        else replChar :: utf8DecodeAux fuel rest
      | [] => [replChar]
    else if 0xE0 ≤ b.toNat && b.toNat ≤ 0xEF then
      match rest with
      | b2 :: b3 :: rest3 =>
        if (isCont b2 && isCont b3 &&
            !(b.toNat = 0xE0 && b2.toNat < 0xA0) &&
            !(b.toNat = 0xED && 0x9F < b2.toNat)) then
          Char.ofNat ((b.toNat - 0xE0) * 4096 + (b2.toNat - 0x80) * 64 +
            (b3.toNat - 0x80)) :: utf8DecodeAux fuel rest3
        else replChar :: utf8DecodeAux fuel rest
      | _ => replChar :: utf8DecodeAux fuel rest
    else if 0xF0 ≤ b.toNat && b.toNat ≤ 0xF4 then
      match rest with
      | b2 :: b3 :: b4 :: rest4 =>
        if (isCont b2 && isCont b3 && isCont b4 &&
            !(b.toNat = 0xF0 && b2.toNat < 0x90) &&
            !(b.toNat = 0xF4 && 0x8F < b2.toNat)) then
          Char.ofNat ((b.toNat - 0xF0) * 262144 + (b2.toNat - 0x80) * 4096 +
            (b3.toNat - 0x80) * 64 + (b4.toNat - 0x80)) ::
            utf8DecodeAux fuel rest4
        else replChar :: utf8DecodeAux fuel rest
      | _ => replChar :: utf8DecodeAux fuel rest
    else replChar :: utf8DecodeAux fuel rest

/-- UTF-8 decoding of a byte list. -/
def utf8Decode (l : List UInt8) : List Char := utf8DecodeAux l.length l

/-- The `unquote_plus` byte phase: `+` becomes a space byte, `%XX` with two
hex digits becomes the byte `XX`, anything else contributes its UTF-8
bytes (a `%` not followed by two hex digits stays literal). -/
def unquotePlusBytes : List Char → List UInt8
  | [] => []
  | '%' :: a :: b :: rest =>
    match hexDigitVal a, hexDigitVal b with
    | some ha, some hb => UInt8.ofNat (16 * ha + hb) :: unquotePlusBytes rest
    | _, _ => String.utf8EncodeChar '%' ++ unquotePlusBytes (a :: b :: rest)
  | '+' :: rest => (0x20 : UInt8) :: unquotePlusBytes rest
  | c :: rest => String.utf8EncodeChar c ++ unquotePlusBytes rest

/-- Model of `urllib.parse.unquote_plus`. -/
def unquotePlus (l : List Char) : String :=
  String.mk (utf8Decode (unquotePlusBytes l))

/-- CPython's always-safe byte set for `quote`: ASCII alphanumerics and
`_.-~`. -/
def alwaysSafeByte (b : UInt8) : Bool :=
  (0x41 ≤ b.toNat && b.toNat ≤ 0x5A) ||
  (0x61 ≤ b.toNat && b.toNat ≤ 0x7A) ||
  (0x30 ≤ b.toNat && b.toNat ≤ 0x39) ||
  b.toNat = 0x5F || b.toNat = 0x2E || b.toNat = 0x2D || b.toNat = 0x7E

/-- Upper-case hexadecimal digit. -/
def hexUpperDigit (n : Nat) : Char :=
  if n < 10 then Char.ofNat (48 + n) else Char.ofNat (55 + n)

/-- How `quote_plus` with `safe=''` renders one byte. -/
def quoteByte (b : UInt8) : List Char :=
  if alwaysSafeByte b then [Char.ofNat b.toNat]
  else if b.toNat = 0x20 then ['+']
  else ['%', hexUpperDigit (b.toNat / 16), hexUpperDigit (b.toNat % 16)]

/-- Model of `urllib.parse.quote_plus` with `safe=''` (what `urlencode` applies to
every key and value). -/
def quotePlus (s : String) : String :=
  String.mk ((s.data.flatMap String.utf8EncodeChar).flatMap quoteByte)

/-- Python `str.split(sep)` on a character list (always at least one group). -/
def splitOnChar (sep : Char) : List Char → List (List Char)
  | [] => [[]]
  | c :: rest =>
    match splitOnChar sep rest with
    | [] => [[c]]
    | g :: gs => if c = sep then [] :: g :: gs else (c :: g) :: gs

/-- Python `str.split(sep, 1)`: split at the first occurrence only; `none` when
the separator does not occur. -/
def splitFirstChar (sep : Char) : List Char → Option (List Char × List Char)
  | [] => none
  | c :: rest =>
    if c = sep then some ([], rest)
    else
      match splitFirstChar sep rest with
      | none => none
      | some (a, b) => some (c :: a, b)

/-- Model of `parse_qsl(qs, keep_blank_values=True)`: split on `&`, skip empty
chunks, split each chunk at the first `=` (a chunk without `=` keeps a
blank value), and unquote names and values. -/
def parseQsl (qs : String) : List (String × String) :=
  (splitOnChar '&' qs.data).filterMap fun nv =>
    if nv = [] then none
    else some (match splitFirstChar '=' nv with
      | some (n, v) => (unquotePlus n, unquotePlus v)
      | none => (unquotePlus nv, ""))

/-- Python `dict` assignment `q[k] = v` on an insertion-ordered
association list: overwrite in place if the key exists, else append. -/
def setKey : List (String × String) → String → String → List (String × String)
  | [], k, v => [(k, v)]
  | kv :: rest, k, v =>
    if kv.1 = k then (kv.1, v) :: rest else kv :: setKey rest k v

/-- Python `q.pop(k, None)`: drop the key's entry if present. -/
def popKey : List (String × String) → String → List (String × String)
  | [], _ => []
  | kv :: rest, k => if kv.1 = k then rest else kv :: popKey rest k

/-- Python `dict(pairs)`: fold the pairs into an insertion-ordered map — a
repeated key keeps its first position but its last value. -/
def dictOfPairs (l : List (String × String)) : List (String × String) :=
  l.foldl (fun acc kv => setKey acc kv.1 kv.2) []

/-- One entry of the `overrides` loop: `None` pops the key, a value
assigns it. -/
def applyOverride (q : List (String × String)) (ov : String × Option String) :
    List (String × String) :=
  match ov.2 with
  | none => popKey q ov.1
  | some v => setKey q ov.1 v

/-- Model of `urlencode(q, doseq=True)` for string-valued entries: quote each key
and value and join with `=` and `&`. -/
def urlencodePairs : List (String × String) → String
  | [] => ""
  | [kv] => quotePlus kv.1 ++ "=" ++ quotePlus kv.2
  | kv :: rest =>
    quotePlus kv.1 ++ "=" ++ quotePlus kv.2 ++ "&" ++ urlencodePairs rest

/-- Model of `_with_params`, restricted to the query component (the other four
`urlsplit` components pass through unchanged). -/
def _with_params (query : String)
    (overrides : List (String × Option String)) : String :=
  urlencodePairs (overrides.foldl applyOverride (dictOfPairs (parseQsl query)))

/-- Source line `total_pages = max(1, (total + page_size - 1) // page_size)`. -/
def total_pages (total page_size : Nat) : Nat :=
  max 1 ((total + page_size - 1) / page_size)

/-- Source line `next_url = _with_params(base_url, {"page": page + 1}) if page < total_pages else None`. -/
def next_url (baseQuery : String) (page page_size total : Nat) :
    Option String :=
  if page < total_pages total page_size then
    some (_with_params baseQuery [("page", some (toString (page + 1)))])
  else none

/-- Source line `prev_url = _with_params(base_url, {"page": page - 1}) if page > 1 else None`. -/
def prev_url (baseQuery : String) (page : Nat) : Option String :=
  if 1 < page then
    some (_with_params baseQuery [("page", some (toString (page - 1)))])
  else none

/-- The last value a key carries in a raw pair list (what Python's
`dict(pairs)` retains for a repeated key). -/
def lastVal (l : List (String × String)) (k : String) : Option String :=
  ((l.filter (fun kv => decide (kv.1 = k))).map Prod.snd).getLast?

/-- Characters that can appear in `quote_plus` output: always-safe ASCII
bytes, `+`, and `%` (hex digits are alphanumeric, hence safe). -/
def allowedOutChar (c : Char) : Bool :=
  (c.toNat < 128 && alwaysSafeByte (UInt8.ofNat c.toNat)) || c = '+' || c = '%'

/-- Characters that can appear in `urlencode` output: `quote_plus` output
plus the `=` and `&` separators. -/
def encodedOutChar (c : Char) : Bool :=
  allowedOutChar c || c = '=' || c = '&'

/-! ## The route table, the freshness marker and the ETag builder -/

/-- One route as declared by a decorator in `main.py`: HTTP method, path
pattern, and the `kind` string of its `rate_limiter` dependency, if it has
one. -/
structure Route where
  method : String
  path : String
  rateLimitKind : Option String
deriving DecidableEq, Repr

/-- Every route exposed by `main.py`, in source order, with its
rate-limiter dependency: `/auth/mode`, `/auth/check`, `/health`, `/apps`
(list, create, update, delete), `/apps/export.csv` and `/metrics`. -/
def routes : List Route :=
  [⟨"GET", "/auth/mode", some "GET"⟩,
   ⟨"GET", "/auth/check", some "GET"⟩,
   ⟨"GET", "/health", some "GET"⟩,
   ⟨"GET", "/apps", some "GET"⟩,
   ⟨"GET", "/apps/export.csv", some "GET"⟩,
   ⟨"POST", "/apps", some "WRITE"⟩,
   ⟨"PUT", "/apps/\x7bapp_id\x7d", some "WRITE"⟩,
   ⟨"DELETE", "/apps/\x7bapp_id\x7d", some "WRITE"⟩,
   ⟨"GET", "/metrics", none⟩]

/-- The request class the spec assigns to a method: read (`"GET"`) for
GET/HEAD, write (`"WRITE"`) for the mutating methods. -/
def requestClass (method : String) : String :=
  if method = "GET" ∨ method = "HEAD" then "GET" else "WRITE"

/-- Model of `_db_mtime` (lines 327-331): `int(os.path.getmtime(DB_PATH))` with
every exception mapped to 0.  The filesystem interaction is modelled by
its outcome — the file's modification time in seconds, or an exception
(missing file, unreadable metadata); `int()` truncates toward zero. -/
def _db_mtime (getmtimeResult : Except String ℚ) : Int :=
  match getmtimeResult with
  | Except.ok t => if 0 ≤ t then t.floor else t.ceil
  | Except.error _ => 0

/-- Model of `_etag_for_list` (lines 344-346): a weak ETag built from the first 16
hex digits of a SHA-256 of `f"{total}:{mtime}:{params_fingerprint}"`; the
hex digest itself enters the model as the function parameter `hashHex`. -/
def _etag_for_list (hashHex : String → String) (total : Nat) (mtime : Int)
    (fp : String) : String :=
  "W/\"" ++ (hashHex (toString total ++ ":" ++ toString mtime ++ ":" ++
    fp)).take 16 ++ "\""

/-- Zero-padded two-digit decimal. -/
def pad2 (n : Nat) : String := if n < 10 then "0" ++ toString n else toString n

/-- The `strftime %a` weekday abbreviations, Sunday first. -/
def weekdayName : Nat → String
  | 0 => "Sun" | 1 => "Mon" | 2 => "Tue" | 3 => "Wed" | 4 => "Thu"
  | 5 => "Fri" | _ => "Sat"

/-- The `strftime %b` month abbreviations. -/
def monthName : Nat → String
  | 1 => "Jan" | 2 => "Feb" | 3 => "Mar" | 4 => "Apr" | 5 => "May"
  | 6 => "Jun" | 7 => "Jul" | 8 => "Aug" | 9 => "Sep" | 10 => "Oct"
  | 11 => "Nov" | _ => "Dec"

/-- Civil date from days since 1970-01-01 (standard era-based
algorithm). -/
def civilFromDays (days : Nat) : Nat × Nat × Nat :=
  let z := days + 719468
  let era := z / 146097
  let doe := z % 146097
  let yoe := (doe - doe / 1460 + doe / 36524 - doe / 146097) / 365
  let y := yoe + era * 400
  let doy := doe - (365 * yoe + yoe / 4 - yoe / 100)
  let mp := (5 * doy + 2) / 153
  let d := doy - (153 * mp + 2) / 5 + 1
  let m := if mp < 10 then mp + 3 else mp - 9
  (if m ≤ 2 then y + 1 else y, m, d)

/-- Model of `time.strftime("%a, %d %b %Y %H:%M:%S GMT", time.gmtime(t))` for a
non-negative number of seconds since the epoch (`t.toNat`). -/
def httpDate (t : Int) : String :=
  let secs := t.toNat
  let days := secs / 86400
  let rem := secs % 86400
  let ymd := civilFromDays days
  weekdayName ((days + 4) % 7) ++ ", " ++ pad2 ymd.2.2 ++ " " ++
    monthName ymd.2.1 ++ " " ++ toString ymd.1 ++ " " ++
    pad2 (rem / 3600) ++ ":" ++ pad2 (rem % 3600 / 60) ++ ":" ++
    pad2 (rem % 60) ++ " GMT"

/-! ## Theorems -/

/-- If no entry of the window is strictly older than the window duration,
the eviction loop removes nothing. -/
theorem evict_eq_self_of_inside (now window : Int) (q : List Int)
    (h : ∀ t ∈ q, now - t ≤ window) : evict now window q = q := by
  cases q with
  | nil => rfl
  | cons a l =>
    unfold evict
    rw [List.dropWhile_cons_of_neg]
    simp only [decide_eq_true_eq, not_lt]
    exact h a (List.mem_cons_self a l)

/-- Under the sorted-window invariant, the eviction loop removes exactly
the entries strictly older than the window duration. -/
theorem evict_eq_filter (now window : Int) (q : List Int)
    (h : q.Sorted (· ≤ ·)) :
    evict now window q = q.filter (fun t => decide (now - t ≤ window)) := by
  induction q with
  | nil => rfl
  | cons a l ih =>
    rcases List.sorted_cons.mp h with ⟨ha, hl⟩
    by_cases hcut : now - a > window
    · unfold evict
      rw [List.dropWhile_cons_of_pos (by simpa using hcut)]
      rw [List.filter_cons_of_neg (by simp; omega)]
      exact ih hl
    · push_neg at hcut
      rw [evict_eq_self_of_inside now window (a :: l)
        (by intro t ht
            rcases List.mem_cons.mp ht with rfl | ht
            · exact hcut
            · have := ha t ht; omega)]
      rw [List.filter_cons_of_pos (by simpa using hcut)]
      congr 1
      rw [eq_comm, List.filter_eq_self]
      intro t ht
      have := ha t ht
      simp only [decide_eq_true_eq]
      omega

/-- Starting from window state `q`, if every pair of relevant timestamps is
within the window duration of each other and there is room for all the
calls, every call is admitted and every timestamp is appended in order. -/
theorem admitRun_all_allowed (limit : Nat) (window : Int) (k : String) :
    ∀ (ts q : List Int),
    (∀ a ∈ q ++ ts, ∀ b ∈ q ++ ts, b - a ≤ window) →
    q.length + ts.length ≤ limit →
    admitRun limit window k q ts =
      (ts.map (fun _ => AdmitResult.allowed), q ++ ts) := by
  intro ts
  induction ts with
  | nil => intro q _ _; simp [admitRun]
  | cons t ts ih =>
    intro q hspread hlen
    have hstep : admitOne limit window k t q = (AdmitResult.allowed, q ++ [t]) := by
      unfold admitOne
      rw [evict_eq_self_of_inside t window q
        (fun x hx => hspread x (List.mem_append_left _ hx) t
          (List.mem_append_right _ (List.mem_cons_self t ts)))]
      rw [if_neg (by simp at hlen ⊢; omega)]
    have hassoc : (q ++ [t]) ++ ts = q ++ (t :: ts) := by simp
    have hrec := ih (q ++ [t])
      (by rw [hassoc]; exact hspread)
      (by simp at hlen ⊢; omega)
    simp only [admitRun, hstep, hrec, hassoc, List.map_cons]

/-- Claim C1. Sliding-window behaviour of `rate_limiter` for one key, with
window `W` and limit `L`: `L` admission calls at non-decreasing times all
within `W` of the first all return `Allowed`; an `(L+1)`-th call still
within the same window is rejected with status 429; and a later call at a
time strictly more than `W` past the first admitted timestamp is allowed
again. -/
theorem rate_limiter_sliding_window
    (L : Nat) (W : Int) (k : String) (t0 : Int) (rest : List Int) (u v : Int)
    (hlen : (t0 :: rest).length = L)
    (hsorted : (t0 :: rest).Sorted (· ≤ ·))
    (hspread : ∀ t ∈ t0 :: rest, t - t0 ≤ W)
    (hu_last : ∀ t ∈ t0 :: rest, t ≤ u) (hu : u - t0 ≤ W)
    (hv : W < v - t0) :
    (admitRun L W k [] (t0 :: rest)).1 =
        (t0 :: rest).map (fun _ => AdmitResult.allowed) ∧
    (admitOne L W k u (admitRun L W k [] (t0 :: rest)).2).1 =
        AdmitResult.rejected 429 (rateLimitDetail k) ∧
    (admitOne L W k v (admitOne L W k u (admitRun L W k [] (t0 :: rest)).2).2).1 =
        AdmitResult.allowed := by
  have hhead : ∀ a ∈ t0 :: rest, t0 ≤ a := by
    intro a ha
    rcases List.mem_cons.mp ha with rfl | ha
    · exact le_refl a
    · exact (List.sorted_cons.mp hsorted).1 a ha
  have hrun := admitRun_all_allowed L W k (t0 :: rest) []
    (by
      intro a ha b hb
      simp only [List.nil_append] at ha hb
      have h1 := hhead a ha
      have h2 := hspread b hb
      omega)
    (by simp [hlen])
  have hstate : (admitRun L W k [] (t0 :: rest)).2 = t0 :: rest := by
    simp [hrun]
  have hnoevict_u : evict u W (t0 :: rest) = t0 :: rest :=
    evict_eq_self_of_inside u W _ (by
      intro t ht
      have h1 := hhead t ht
      omega)
  have hreject : admitOne L W k u (t0 :: rest) =
      (AdmitResult.rejected 429 (rateLimitDetail k), t0 :: rest) := by
    unfold admitOne
    rw [hnoevict_u, if_pos (by rw [hlen])]
  refine ⟨by rw [hrun], by rw [hstate, hreject], ?_⟩
  rw [hstate, hreject]
  show (admitOne L W k v (t0 :: rest)).1 = AdmitResult.allowed
  have hdrop : evict v W (t0 :: rest) =
      rest.dropWhile (fun t => decide (v - t > W)) := by
    unfold evict
    rw [List.dropWhile_cons_of_pos (by simpa using hv)]
  have hlt : (evict v W (t0 :: rest)).length < L := by
    rw [hdrop]
    have h1 : (rest.dropWhile (fun t => decide (v - t > W))).length ≤
        rest.length := (List.dropWhile_suffix _).length_le
    simp only [List.length_cons] at hlen
    omega
  unfold admitOne
  rw [if_neg (by omega)]

/-- Concrete witness for `rate_limiter_sliding_window`: limit 2, window 10
ticks, hits at times 0 and 1, a third call at time 2 (rejected) and a
fourth at time 11 (allowed again). -/
theorem rate_limiter_sliding_window_witness :
    (admitRun 2 10 "get" [] [0, 1]).1 =
        [AdmitResult.allowed, AdmitResult.allowed] ∧
    (admitOne 2 10 "get" 2 (admitRun 2 10 "get" [] [0, 1]).2).1 =
        AdmitResult.rejected 429 (rateLimitDetail "get") ∧
    (admitOne 2 10 "get" 11 (admitOne 2 10 "get" 2 (admitRun 2 10 "get" [] [0, 1]).2).2).1 =
        AdmitResult.allowed := by
  have h := rate_limiter_sliding_window 2 10 "get" 0 [1] 2 11
    (by decide) (by decide)
    (by decide) (by decide) (by decide) (by decide)
  simpa using h

/-- Claim C2, counterexample. With `now = 60` and `window = 60`, an entry at
timestamp `0` sits exactly at the boundary `now - window`.  The code's
eviction loop (`(now - q[0]) > window`) keeps it, while the claimed rule
(`timestamp <= now - window`) would evict it, so the two disagree at this
input. -/
theorem rate_limiter_eviction_boundary_counterexample :
    evict 60 60 [0] = [0] ∧ evictClaimed 60 60 [0] = [] ∧
    evict 60 60 [0] ≠ evictClaimed 60 60 [0] := by
  refine ⟨rfl, rfl, ?_⟩
  decide

/-- Claim C2, amended. On every admitOne call, under the sorted-window
invariant, the eviction loop removes exactly the entries with
`timestamp < now - windowDuration` (strict `<`): an entry whose timestamp
is exactly `now - windowDuration` is retained and still counted against
the limit. -/
theorem rate_limiter_eviction_strict (now window : Int) (q : List Int)
    (h : q.Sorted (· ≤ ·)) :
    evict now window q = q.filter (fun t => decide (now - window ≤ t)) := by
  rw [evict_eq_filter now window q h]
  apply List.filter_congr
  intro t _
  simp only [decide_eq_true_eq, decide_eq_decide]
  omega

/-- Concrete witness for `rate_limiter_eviction_strict`: at `now = 100`
with `window = 60`, entries `0` and `39` are evicted while `40` (the exact
boundary) and `41` survive. -/
theorem rate_limiter_eviction_strict_witness :
    evict 100 60 [0, 39, 40, 41] =
      List.filter (fun t => decide ((100 : Int) - 60 ≤ t)) [0, 39, 40, 41] :=
  rate_limiter_eviction_strict 100 60 [0, 39, 40, 41] (by decide)

/-- A single admission call only writes the window of its own
`(ip, kind)` key. -/
theorem admitState_frame (rlGet rlWrite : Nat) (window : Int)
    (st : HitsState) (ip kind : String) (now : Int) (key : String × String)
    (h : key ≠ (ip, kind)) :
    (admitState rlGet rlWrite window st ip kind now).2 key = st key := by
  simp only [admitState]
  rw [if_neg h]

/-- A sequence of admission calls leaves every key that none of the calls
touches unchanged. -/
theorem admitStateRun_frame (rlGet rlWrite : Nat) (window : Int) :
    ∀ (calls : List (String × String × Int)) (st : HitsState)
      (key : String × String),
    (∀ c ∈ calls, key ≠ (c.1, c.2.1)) →
    (admitStateRun rlGet rlWrite window st calls).2 key = st key := by
  intro calls
  induction calls with
  | nil => intro st key _; rfl
  | cons c cs ih =>
    intro st key h
    simp only [admitStateRun]
    rw [ih _ key (fun c' hc' => h c' (List.mem_cons_of_mem c hc'))]
    exact admitState_frame rlGet rlWrite window st c.1 c.2.1 c.2.2 key
      (h c (List.mem_cons_self c cs))

/-- The decision of an admission call depends only on the window stored at
its own key. -/
theorem admitState_congr (rlGet rlWrite : Nat) (window : Int)
    (st₁ st₂ : HitsState) (ip kind : String) (now : Int)
    (h : st₁ (ip, kind) = st₂ (ip, kind)) :
    (admitState rlGet rlWrite window st₁ ip kind now).1 =
      (admitState rlGet rlWrite window st₂ ip kind now).1 := by
  simp only [admitState, h]

/-- Claim C9. Read/write budget isolation: for every client, any sequence of
write-class admission calls leaves every read-class window unchanged and
leaves every subsequent read-class admission decision unchanged — and
symmetrically, read-class calls do not affect write-class state or
decisions. -/
theorem rate_limiter_class_isolation (rlGet rlWrite : Nat) (window : Int)
    (st : HitsState) (ip ip' : String) (times : List Int) (now : Int) :
    ((admitStateRun rlGet rlWrite window st
        (times.map fun t => (ip, "WRITE", t))).2 (ip', "GET") =
      st (ip', "GET") ∧
     (admitState rlGet rlWrite window
        (admitStateRun rlGet rlWrite window st
          (times.map fun t => (ip, "WRITE", t))).2 ip' "GET" now).1 =
      (admitState rlGet rlWrite window st ip' "GET" now).1) ∧
    ((admitStateRun rlGet rlWrite window st
        (times.map fun t => (ip, "GET", t))).2 (ip', "WRITE") =
      st (ip', "WRITE") ∧
     (admitState rlGet rlWrite window
        (admitStateRun rlGet rlWrite window st
          (times.map fun t => (ip, "GET", t))).2 ip' "WRITE" now).1 =
      (admitState rlGet rlWrite window st ip' "WRITE" now).1) := by
  have hw : (admitStateRun rlGet rlWrite window st
      (times.map fun t => (ip, "WRITE", t))).2 (ip', "GET") =
      st (ip', "GET") := by
    apply admitStateRun_frame
    intro c hc
    rcases List.mem_map.mp hc with ⟨t, _, rfl⟩
    simp
  have hr : (admitStateRun rlGet rlWrite window st
      (times.map fun t => (ip, "GET", t))).2 (ip', "WRITE") =
      st (ip', "WRITE") := by
    apply admitStateRun_frame
    intro c hc
    rcases List.mem_map.mp hc with ⟨t, _, rfl⟩
    simp
  exact ⟨⟨hw, admitState_congr _ _ _ _ _ _ _ _ hw⟩,
         ⟨hr, admitState_congr _ _ _ _ _ _ _ _ hr⟩⟩

/-- Claim C7. On an unhandled downstream exception the middleware records
exactly one metrics entry under the fixed sentinel status 500 — the
counter for `(method, path, 500)` is incremented and the elapsed time is
appended to the latency deque — and then re-raises the original exception
unchanged. -/
theorem middleware_records_500_and_reraises {ε : Type} (m : Metrics)
    (method path : String) (e : ε) (dtMs : Int) :
    (timing_and_logging m method path (Except.error e) dtMs).2 =
        Except.error e ∧
    (timing_and_logging m method path (Except.error e) dtMs).1.requestsTotal
        (method, path, 500) = m.requestsTotal (method, path, 500) + 1 ∧
    (timing_and_logging m method path
        (Except.error e) dtMs).1.requestDurationMs (method, path) =
      dequeAppend 500 (m.requestDurationMs (method, path)) dtMs := by
  refine ⟨rfl, ?_, ?_⟩
  · simp [timing_and_logging, record]
  · simp [timing_and_logging, record]

/-- One middleware pass records exactly the outcome's status. -/
theorem timing_and_logging_eq_record (m : Metrics) (method path : String)
    (o : ReqOutcome) (d : Int) :
    (timing_and_logging m method path (toOutcome o) d).1 =
      record m method path (recordedStatus o) d := by
  cases o <;> rfl

/-- Counter bookkeeping: after a request sequence, each status counter for
the key grew by exactly the number of requests recorded at that status. -/
theorem runPipeline_counter (method path : String) (s : Nat) :
    ∀ (reqs : List (ReqOutcome × Int)) (m : Metrics),
    (runPipeline m method path reqs).requestsTotal (method, path, s) =
      m.requestsTotal (method, path, s) +
        (reqs.map (fun r => recordedStatus r.1)).count s := by
  intro reqs
  induction reqs with
  | nil => intro m; simp [runPipeline]
  | cons r rs ih =>
    intro m
    simp only [runPipeline, timing_and_logging_eq_record, ih, List.map_cons]
    rw [List.count_cons]
    simp only [record]
    by_cases hs : recordedStatus r.1 = s
    · rw [if_pos (by rw [hs]), if_pos (by simp [hs])]
      omega
    · rw [if_neg (by simpa using Ne.symm hs), if_neg (by simpa using hs)]
      omega

/-- Latency bookkeeping: the deque after a request sequence is the fold of
the bounded append over the durations. -/
theorem runPipeline_durations (method path : String) :
    ∀ (reqs : List (ReqOutcome × Int)) (m : Metrics),
    (runPipeline m method path reqs).requestDurationMs (method, path) =
      (reqs.map Prod.snd).foldl (dequeAppend 500)
        (m.requestDurationMs (method, path)) := by
  intro reqs
  induction reqs with
  | nil => intro m; simp [runPipeline]
  | cons r rs ih =>
    intro m
    simp only [runPipeline, timing_and_logging_eq_record, ih, List.map_cons,
      List.foldl_cons]
    have hrec : (record m method path (recordedStatus r.1) r.2).requestDurationMs
        (method, path) = dequeAppend 500 (m.requestDurationMs (method, path)) r.2 := by
      simp [record]
    rw [hrec]

/-- Dropping fewer elements than the first part's length only touches the
first part of an append. -/
theorem drop_append_left (A B : List Int) (n : Nat) (h : n ≤ A.length) :
    (A ++ B).drop n = A.drop n ++ B := by
  rw [List.drop_append_eq_append_drop, Nat.sub_eq_zero_of_le h,
    List.drop_zero]

/-- Folding the bounded append over a list keeps exactly the trailing
`maxlen` elements. -/
theorem foldl_dequeAppend (maxlen : Nat) :
    ∀ (l q : List Int), q.length ≤ maxlen →
    l.foldl (dequeAppend maxlen) q =
      (q ++ l).drop ((q ++ l).length - maxlen) := by
  intro l
  induction l with
  | nil =>
    intro q hq
    rw [List.foldl_nil, List.append_nil, Nat.sub_eq_zero_of_le hq,
      List.drop_zero]
  | cons x l ih =>
    intro q hq
    have hd : (q.length + 1) - maxlen ≤ (q ++ [x]).length := by simp
    have hstep : dequeAppend maxlen q x =
        (q ++ [x]).drop ((q.length + 1) - maxlen) := by
      simp [dequeAppend]
    have hlen : (dequeAppend maxlen q x).length ≤ maxlen := by
      rw [hstep, List.length_drop]
      simp
      omega
    rw [List.foldl_cons, ih _ hlen, hstep,
      ← drop_append_left (q ++ [x]) l _ hd, List.drop_drop]
    have h1 : (q ++ [x]) ++ l = q ++ x :: l := by simp
    rw [h1]
    congr 1
    rw [List.length_drop]
    simp
    omega

/-- Claim C4. Metrics totality for one `(method, path)`: starting from a
state with nothing recorded for that key, after any sequence of `N`
requests — successes, handler failures and rate-limited rejections mixed —
the status counters for the key sum to `N`, and the retained latency
samples are exactly the last `min(N, 500)` durations (the oldest are
evicted first), in particular `min(N, 500)` samples are retained. -/
theorem metrics_totality (method path : String)
    (reqs : List (ReqOutcome × Int)) (m : Metrics)
    (hcount : ∀ s, m.requestsTotal (method, path, s) = 0)
    (hdur : m.requestDurationMs (method, path) = []) :
    (∑ s ∈ (reqs.map (fun r => recordedStatus r.1)).toFinset,
        (runPipeline m method path reqs).requestsTotal (method, path, s)) =
      reqs.length ∧
    (runPipeline m method path reqs).requestDurationMs (method, path) =
      (reqs.map Prod.snd).drop (reqs.length - 500) ∧
    ((runPipeline m method path reqs).requestDurationMs
        (method, path)).length = min reqs.length 500 := by
  have hdrop : (runPipeline m method path reqs).requestDurationMs
      (method, path) = (reqs.map Prod.snd).drop (reqs.length - 500) := by
    rw [runPipeline_durations, hdur]
    rw [foldl_dequeAppend 500 _ [] (by simp)]
    simp
  refine ⟨?_, hdrop, ?_⟩
  · have hpt : ∀ s, (runPipeline m method path reqs).requestsTotal
        (method, path, s) =
        (reqs.map (fun r => recordedStatus r.1)).count s := by
      intro s
      rw [runPipeline_counter, hcount]
      simp
    calc (∑ s ∈ (reqs.map (fun r => recordedStatus r.1)).toFinset,
            (runPipeline m method path reqs).requestsTotal (method, path, s))
        = ∑ s ∈ (reqs.map (fun r => recordedStatus r.1)).toFinset,
            (reqs.map (fun r => recordedStatus r.1)).count s :=
          Finset.sum_congr rfl (fun s _ => hpt s)
      _ = (reqs.map (fun r => recordedStatus r.1)).length := by
          simp [Multiset.toFinset_sum_count_eq]
      _ = reqs.length := by simp
  · rw [hdrop, List.length_drop]
    simp
    omega

/-- Concrete witness for `metrics_totality`: after the four mixed requests
of `sampleReqs` against the empty store, the counters for statuses 200,
500 and 429 sum to 4 and all four durations are retained. -/
theorem metrics_totality_witness :
    (∑ s ∈ (sampleReqs.map (fun r => recordedStatus r.1)).toFinset,
        (runPipeline emptyMetrics "GET" "/apps" sampleReqs).requestsTotal
          ("GET", "/apps", s)) = 4 ∧
    (runPipeline emptyMetrics "GET" "/apps" sampleReqs).requestDurationMs
        ("GET", "/apps") = [5, 7, 1, 2] ∧
    ((runPipeline emptyMetrics "GET" "/apps" sampleReqs).requestDurationMs
        ("GET", "/apps")).length = 4 := by
  exact metrics_totality "GET" "/apps" sampleReqs emptyMetrics
    (fun _ => rfl) rfl

/-- Claim C3, counterexample. A present-but-mismatching `If-None-Match`
together with a matching `If-Modified-Since` yields the 304 response, not
the full response the claim predicts: the code never gates the
`If-Modified-Since` comparison on the absence of `If-None-Match`. -/
theorem conditional_cache_counterexample :
    (listAppsConditional (some "W/\"zzz\"")
        (some "Thu, 01 Jan 1970 00:00:00 GMT")
        "W/\"abc\"" "Thu, 01 Jan 1970 00:00:00 GMT").status = 304 ∧
    (listAppsConditional (some "W/\"zzz\"")
        (some "Thu, 01 Jan 1970 00:00:00 GMT")
        "W/\"abc\"" "Thu, 01 Jan 1970 00:00:00 GMT").hasBody = false ∧
    ¬((some "W/\"zzz\"" : Option String) = some "W/\"abc\"" ∨
      ((some "W/\"zzz\"" : Option String) = none ∧
       (some "Thu, 01 Jan 1970 00:00:00 GMT" : Option String) =
         some "Thu, 01 Jan 1970 00:00:00 GMT")) := by
  decide

/-- Claim C3, amended. The conditional evaluation returns the bodyless 304
iff `If-None-Match` equals the computed ETag verbatim, or
`If-Modified-Since` is present, non-empty and equals the computed
Last-Modified string verbatim — the second comparison applies whether or
not `If-None-Match` is present.  Every other combination yields the full
200 response, and both validator headers are set on both paths. -/
theorem conditional_cache_amended (inm ims : Option String)
    (etag lastMod : String) :
    ((listAppsConditional inm ims etag lastMod).status = 304 ∧
       (listAppsConditional inm ims etag lastMod).hasBody = false ↔
      (inm = some etag ∨ (¬ lastMod = "" ∧ ims = some lastMod))) ∧
    (listAppsConditional inm ims etag lastMod).etagHeader = some etag ∧
    (listAppsConditional inm ims etag lastMod).lastModifiedHeader =
      some lastMod ∧
    ((listAppsConditional inm ims etag lastMod).status = 304 ∨
     ((listAppsConditional inm ims etag lastMod).status = 200 ∧
      (listAppsConditional inm ims etag lastMod).hasBody = true)) := by
  have hcond : isNotModified inm ims etag lastMod = true ↔
      (inm = some etag ∨ (¬ lastMod = "" ∧ ims = some lastMod)) := by
    cases ims with
    | none => simp [isNotModified]
    | some s =>
      simp only [isNotModified, Bool.or_eq_true, decide_eq_true_eq,
        Bool.and_eq_true, Option.some.injEq]
      constructor
      · rintro (h | ⟨hs, rfl⟩)
        · exact Or.inl h
        · exact Or.inr ⟨hs, rfl⟩
      · rintro (h | ⟨hs, heq⟩)
        · exact Or.inl h
        · rcases heq with rfl
          exact Or.inr ⟨hs, rfl⟩
  unfold listAppsConditional
  by_cases h : isNotModified inm ims etag lastMod = true
  · rw [if_pos h]
    exact ⟨⟨fun _ => hcond.mp h, fun _ => ⟨rfl, rfl⟩⟩, rfl, rfl, Or.inl rfl⟩
  · rw [if_neg h]
    refine ⟨?_, rfl, rfl, Or.inr ⟨rfl, rfl⟩⟩
    constructor
    · rintro ⟨h304, -⟩
      simp at h304
    · intro hc
      exact absurd (hcond.mpr hc) h

theorem uint8_ofNat_toNat (b : UInt8) : UInt8.ofNat b.toNat = b := by
  cases b with
  | mk bv =>
    cases bv with
    | ofFin f =>
      cases f with
      | mk v hv =>
        simp only [UInt8.ofNat, UInt8.toNat]
        congr 1
        exact BitVec.eq_of_toNat_eq (by simp [Nat.mod_eq_of_lt hv])

set_option maxRecDepth 2000 in
theorem quoteByte_allowed_fin :
    ∀ n : Fin 256, (quoteByte (UInt8.ofNat n.val)).all allowedOutChar = true := by
  decide

theorem quoteByte_allowed (b : UInt8) :
    (quoteByte b).all allowedOutChar = true := by
  have h := quoteByte_allowed_fin ⟨b.toNat, b.toNat_lt⟩
  rwa [uint8_ofNat_toNat] at h

/-- Every character `quote_plus` emits is an always-safe character, `+`,
or part of a percent escape: reserved characters are escaped. -/
theorem quotePlus_allowed (s : String) :
    (quotePlus s).data.all allowedOutChar = true := by
  show ((s.data.flatMap String.utf8EncodeChar).flatMap quoteByte).all
    allowedOutChar = true
  rw [List.all_eq_true]
  intro c hc
  rw [List.mem_flatMap] at hc
  obtain ⟨b, _, hcb⟩ := hc
  exact List.all_eq_true.mp (quoteByte_allowed b) c hcb

theorem allowed_imp_encoded (c : Char) (h : allowedOutChar c = true) :
    encodedOutChar c = true := by
  simp [encodedOutChar, h]

/-- Every character of the re-encoded query is safe, `+`, part of a
percent escape, or one of the separators `=`/`&`. -/
theorem urlencodePairs_allowed (l : List (String × String)) :
    (urlencodePairs l).data.all encodedOutChar = true := by
  induction l with
  | nil => rfl
  | cons kv rest ih =>
    have hpair : ∀ k v : String,
        ((quotePlus k ++ "=" ++ quotePlus v)).data.all encodedOutChar =
          true := by
      intro k v
      rw [String.data_append, String.data_append, List.all_append,
        List.all_append]
      have h1 : (quotePlus k).data.all encodedOutChar = true := by
        rw [List.all_eq_true]
        intro c hc
        exact allowed_imp_encoded c
          (List.all_eq_true.mp (quotePlus_allowed k) c hc)
      have h2 : (quotePlus v).data.all encodedOutChar = true := by
        rw [List.all_eq_true]
        intro c hc
        exact allowed_imp_encoded c
          (List.all_eq_true.mp (quotePlus_allowed v) c hc)
      rw [h1, h2]
      rfl
    cases rest with
    | nil => exact hpair kv.1 kv.2
    | cons kv2 rest2 =>
      show ((quotePlus kv.1 ++ "=" ++ quotePlus kv.2 ++ "&" ++
        urlencodePairs (kv2 :: rest2))).data.all encodedOutChar = true
      rw [String.data_append, String.data_append, List.all_append,
        List.all_append]
      rw [hpair kv.1 kv.2, ih]
      rfl

theorem setKey_lookup_self (q : List (String × String)) (k v : String) :
    (setKey q k v).lookup k = some v := by
  induction q with
  | nil => simp [setKey, List.lookup]
  | cons kv rest ih =>
    by_cases h : kv.1 = k
    · simp [setKey, h, List.lookup]
    · have hb : (k == kv.1) = false := by
        simpa using fun hh => h hh.symm
      simp only [setKey, if_neg h, List.lookup, hb]
      exact ih

theorem setKey_lookup_other (q : List (String × String)) (k v k' : String)
    (h : ¬ k' = k) : (setKey q k v).lookup k' = q.lookup k' := by
  induction q with
  | nil =>
    have hb : (k' == k) = false := by simpa using h
    simp [setKey, List.lookup, hb]
  | cons kv rest ih =>
    by_cases hk : kv.1 = k
    · subst hk
      have hb : (k' == kv.1) = false := by simpa using h
      simp only [setKey, if_pos rfl, List.lookup, hb]
    · simp only [setKey, if_neg hk, List.lookup]
      cases hb : (k' == kv.1) with
      | true => rfl
      | false => exact ih

/-- Overwriting a key leaves the list with that key's first occurrence
erased — hence every other entry, value and relative order included —
unchanged. -/
theorem setKey_eraseP (q : List (String × String)) (k v : String) :
    (setKey q k v).eraseP (fun kv => decide (kv.1 = k)) =
      q.eraseP (fun kv => decide (kv.1 = k)) := by
  induction q with
  | nil => simp [setKey]
  | cons kv rest ih =>
    by_cases h : kv.1 = k
    · simp only [setKey, if_pos h]
      rw [List.eraseP_cons_of_pos (p := fun kv : String × String =>
            decide (kv.1 = k)) (by simpa using h),
          List.eraseP_cons_of_pos (p := fun kv : String × String =>
            decide (kv.1 = k)) (by simpa using h)]
    · simp only [setKey, if_neg h]
      rw [List.eraseP_cons_of_neg (p := fun kv : String × String =>
            decide (kv.1 = k)) (by simpa using h),
          List.eraseP_cons_of_neg (p := fun kv : String × String =>
            decide (kv.1 = k)) (by simpa using h), ih]

theorem mem_keys_setKey (q : List (String × String)) (k v a : String)
    (h : a ∈ (setKey q k v).map Prod.fst) : a ∈ q.map Prod.fst ∨ a = k := by
  induction q with
  | nil => simp [setKey] at h; exact Or.inr h
  | cons kv rest ih =>
    by_cases hk : kv.1 = k
    · simp only [setKey, if_pos hk, List.map_cons, List.mem_cons] at h
      rcases h with rfl | h
      · exact Or.inl (by simp)
      · exact Or.inl (by simp [h])
    · simp only [setKey, if_neg hk, List.map_cons, List.mem_cons] at h
      rcases h with rfl | h
      · exact Or.inl (by simp)
      · rcases ih h with h' | h'
        · exact Or.inl (by simp [h'])
        · exact Or.inr h'

theorem setKey_keys_nodup (q : List (String × String)) (k v : String)
    (h : (q.map Prod.fst).Nodup) : ((setKey q k v).map Prod.fst).Nodup := by
  induction q with
  | nil => simp [setKey]
  | cons kv rest ih =>
    simp only [List.map_cons, List.nodup_cons] at h
    rcases h with ⟨hni, hrest⟩
    by_cases hk : kv.1 = k
    · simp only [setKey, if_pos hk, List.map_cons, List.nodup_cons]
      exact ⟨hni, hrest⟩
    · simp only [setKey, if_neg hk, List.map_cons, List.nodup_cons]
      refine ⟨?_, ih hrest⟩
      intro hmem
      rcases mem_keys_setKey rest k v kv.1 hmem with h' | h'
      · exact hni h'
      · exact hk h'

/-- Python `dict(...)` never holds two entries with the same key. -/
theorem dictOfPairs_keys_nodup (l : List (String × String)) :
    ((dictOfPairs l).map Prod.fst).Nodup := by
  suffices h : ∀ (l acc : List (String × String)), (acc.map Prod.fst).Nodup →
      ((l.foldl (fun acc kv => setKey acc kv.1 kv.2) acc).map
        Prod.fst).Nodup by
    exact h l [] (by simp)
  intro l
  induction l with
  | nil => intro acc h; simpa using h
  | cons kv rest ih =>
    intro acc h
    exact ih _ (setKey_keys_nodup acc kv.1 kv.2 h)

/-- Python `dict(pairs)` maps each key to the last value it carried in the raw
pair list. -/
theorem dictOfPairs_lookup (l : List (String × String)) (k : String) :
    (dictOfPairs l).lookup k = lastVal l k := by
  induction l using List.reverseRecOn with
  | nil => simp [dictOfPairs, lastVal, List.lookup]
  | append_singleton l kv ih =>
    have hfold : dictOfPairs (l ++ [kv]) =
        setKey (dictOfPairs l) kv.1 kv.2 := by
      simp [dictOfPairs, List.foldl_append]
    rw [hfold]
    by_cases h : k = kv.1
    · subst h
      rw [setKey_lookup_self]
      unfold lastVal
      rw [List.filter_append, List.map_append]
      simp
    · rw [setKey_lookup_other _ _ _ _ h, ih]
      unfold lastVal
      rw [List.filter_append, List.map_append]
      have hf : List.filter (fun kv' => decide (kv'.1 = k)) [kv] = [] := by
        simp only [List.filter, decide_eq_true_eq]
        have hne : ¬ kv.1 = k := fun hh => h hh.symm
        simp [hne]
      rw [hf]
      simp

/-- Claim C6, counterexample. The rewrite does not preserve repeated
parameters: in `a=1&a=2&page=1` the parameter `a` appears twice, but the
rewritten URL keeps only its last value — `dict(parse_qsl(...))` collapses
duplicates — so the non-`page` parameters of the output differ from those
of the base. -/
theorem with_params_counterexample :
    _with_params "a=1&a=2&page=1" [("page", some "2")] = "a=2&page=2" ∧
    parseQsl "a=1&a=2&page=1" = [("a", "1"), ("a", "2"), ("page", "1")] ∧
    (parseQsl "a=2&page=2").filter (fun kv => decide (¬ kv.1 = "page")) =
      [("a", "2")] ∧
    ¬ (parseQsl "a=2&page=2").filter (fun kv => decide (¬ kv.1 = "page")) =
      (parseQsl "a=1&a=2&page=1").filter
        (fun kv => decide (¬ kv.1 = "page")) := by
  refine ⟨rfl, rfl, rfl, by decide⟩

/-- Claim C6, amended. The page rewrite used for pagination links: the
output is the re-encoding of `dict(parse_qsl(base))` with `page` set to
the override; the resulting parameter list never contains a duplicated
key; `page` maps to the override value; every other entry — holding the
last decoded value its key had in the base query, in first-occurrence
order — is unchanged (repeated base parameters collapse to one entry, and
the original encoding is canonicalised rather than preserved verbatim);
and every output character is an unreserved character, `+`, part of a
percent escape, or a separator. -/
theorem with_params_page_rewrite (baseQuery pageVal : String) :
    _with_params baseQuery [("page", some pageVal)] =
      urlencodePairs
        (setKey (dictOfPairs (parseQsl baseQuery)) "page" pageVal) ∧
    ((setKey (dictOfPairs (parseQsl baseQuery)) "page" pageVal).map
      Prod.fst).Nodup ∧
    (setKey (dictOfPairs (parseQsl baseQuery)) "page" pageVal).lookup
      "page" = some pageVal ∧
    (setKey (dictOfPairs (parseQsl baseQuery)) "page" pageVal).eraseP
        (fun kv => decide (kv.1 = "page")) =
      (dictOfPairs (parseQsl baseQuery)).eraseP
        (fun kv => decide (kv.1 = "page")) ∧
    (∀ k, ¬ k = "page" →
      (setKey (dictOfPairs (parseQsl baseQuery)) "page" pageVal).lookup k =
        lastVal (parseQsl baseQuery) k) ∧
    (_with_params baseQuery [("page", some pageVal)]).data.all
      encodedOutChar = true := by
  refine ⟨rfl, setKey_keys_nodup _ _ _ (dictOfPairs_keys_nodup _),
    setKey_lookup_self _ _ _, setKey_eraseP _ _ _, ?_, ?_⟩
  · intro k hk
    rw [setKey_lookup_other _ _ _ _ hk, dictOfPairs_lookup]
  · exact urlencodePairs_allowed _

/-- Concrete witness for `with_params_page_rewrite`: a base query with a
repeated `a`, a percent-escaped `x` and a `page`, rewritten to page 2;
the parameter `x` keeps its (decoded) last value. -/
theorem with_params_page_rewrite_witness :
    _with_params "a=1&a=2&x=y%20z&page=1" [("page", some "2")] =
      urlencodePairs
        (setKey (dictOfPairs (parseQsl "a=1&a=2&x=y%20z&page=1"))
          "page" "2") ∧
    (setKey (dictOfPairs (parseQsl "a=1&a=2&x=y%20z&page=1")) "page"
        "2").lookup "x" = lastVal (parseQsl "a=1&a=2&x=y%20z&page=1") "x" := by
  have h := with_params_page_rewrite "a=1&a=2&x=y%20z&page=1" "2"
  exact ⟨h.1, h.2.2.2.2.1 "x" (by decide)⟩

/-- Claim C5, counterexample. With base query `b=1&b=2&page=1`, `total=23`
and `pageSize=5`, the next link exists but is not "baseUrl with only the
page parameter rewritten": the repeated parameter `b` loses its first
value, so the produced URL differs from the claim's
`b=1&b=2&page=2`. -/
theorem pagination_links_counterexample :
    next_url "b=1&b=2&page=1" 1 5 23 = some "b=2&page=2" ∧
    ¬ next_url "b=1&b=2&page=1" 1 5 23 = some "b=1&b=2&page=2" := by
  exact ⟨rfl, by decide⟩

/-- Claim C5, amended. Pagination links: `totalPages` is the ceiling of
`total / pageSize` with a minimum of 1; a next link is present iff
`page < totalPages` and a prev link iff `page > 1`; each is the page
rewrite of the base query with value `page+1` (resp. `page-1`) — the
rewritten query maps `page` to the new value and keeps every other
collapsed parameter entry unchanged (repeated base parameters collapse to
their last value as in the `_with_params` analysis). -/
theorem pagination_links_amended (baseQuery : String)
    (page page_size total : Nat) :
    total_pages total page_size = max 1 (total ⌈/⌉ page_size) ∧
    ((next_url baseQuery page page_size total).isSome ↔
      page < total_pages total page_size) ∧
    ((prev_url baseQuery page).isSome ↔ 1 < page) ∧
    (page < total_pages total page_size →
      next_url baseQuery page page_size total =
        some (urlencodePairs (setKey (dictOfPairs (parseQsl baseQuery))
          "page" (toString (page + 1)))) ∧
      (setKey (dictOfPairs (parseQsl baseQuery)) "page"
        (toString (page + 1))).lookup "page" = some (toString (page + 1)) ∧
      (setKey (dictOfPairs (parseQsl baseQuery)) "page"
          (toString (page + 1))).eraseP
          (fun kv => decide (kv.1 = "page")) =
        (dictOfPairs (parseQsl baseQuery)).eraseP
          (fun kv => decide (kv.1 = "page"))) ∧
    (1 < page →
      prev_url baseQuery page =
        some (urlencodePairs (setKey (dictOfPairs (parseQsl baseQuery))
          "page" (toString (page - 1)))) ∧
      (setKey (dictOfPairs (parseQsl baseQuery)) "page"
        (toString (page - 1))).lookup "page" = some (toString (page - 1)) ∧
      (setKey (dictOfPairs (parseQsl baseQuery)) "page"
          (toString (page - 1))).eraseP
          (fun kv => decide (kv.1 = "page")) =
        (dictOfPairs (parseQsl baseQuery)).eraseP
          (fun kv => decide (kv.1 = "page"))) := by
  refine ⟨by rw [Nat.ceilDiv_eq_add_pred_div]; rfl, ?_, ?_, ?_, ?_⟩
  · by_cases h : page < total_pages total page_size <;> simp [next_url, h]
  · by_cases h : 1 < page <;> simp [prev_url, h]
  · intro h
    exact ⟨by rw [next_url, if_pos h]; rfl, setKey_lookup_self _ _ _,
      setKey_eraseP _ _ _⟩
  · intro h
    exact ⟨by rw [prev_url, if_pos h]; rfl, setKey_lookup_self _ _ _,
      setKey_eraseP _ _ _⟩

/-- Concrete witness for `pagination_links_amended`, on the spec's worked
example `total=23, pageSize=5`: 5 total pages; page 1 has no prev and its
next targets page 2; page 5 has no next and its prev targets page 4; the
other parameter `q=foo` is preserved. -/
theorem pagination_links_amended_witness :
    next_url "q=foo&page=1" 1 5 23 = some "q=foo&page=2" ∧
    prev_url "q=foo&page=1" 1 = none ∧
    next_url "q=foo&page=5" 5 5 23 = none ∧
    prev_url "q=foo&page=5" 5 = some "q=foo&page=4" ∧
    total_pages 23 5 = 5 := by
  have h1 := pagination_links_amended "q=foo&page=1" 1 5 23
  have h5 := pagination_links_amended "q=foo&page=5" 5 5 23
  refine ⟨?_, by decide, by decide, ?_, by decide⟩
  · exact ((h1.2.2.2.1 (by decide)).1).trans (by decide)
  · exact ((h5.2.2.2.2 (by decide)).1).trans (by decide)

/-- Claim C8, counterexample. Not every route evaluates a rate-limit check:
the `GET /metrics` route is declared without a `rate_limiter` dependency,
so requests to it bypass the limiter entirely. -/
theorem routes_rate_limited_counterexample :
    (⟨"GET", "/metrics", none⟩ : Route) ∈ routes ∧
    (routes.all fun r => r.rateLimitKind.isSome) = false := by
  decide

/-- Claim C8, amended. Every exposed route except `GET /metrics` declares a
rate-limiter dependency whose request class matches its method — `"GET"`
for the GET routes, `"WRITE"` for POST/PUT/DELETE — and the class selects
the corresponding budget (`RATE_LIMIT_GET` for `"GET"`, `RATE_LIMIT_WRITE`
otherwise), rejecting with a 429 before the handler runs; `GET /metrics`
alone bypasses the limiter. -/
theorem routes_rate_limited_amended (rlGet rlWrite : Nat) :
    (routes.filter (fun r =>
        !(decide (r.method = "GET") && decide (r.path = "/metrics")))).all
      (fun r => decide (r.rateLimitKind = some (requestClass r.method))) =
      true ∧
    limitFor rlGet rlWrite "GET" = rlGet ∧
    limitFor rlGet rlWrite "WRITE" = rlWrite := by
  refine ⟨by decide, rfl, ?_⟩
  rw [limitFor, if_neg (by decide)]

/-- Claim C10. The freshness marker is total: every filesystem outcome
yields an integer (the embedding's `_db_mtime` never raises), a missing
or unreadable database file yields 0, and the list response's validator
headers are still produced from that 0 — the `Last-Modified` string is
exactly the epoch date and the ETag is the one computed for marker 0. -/
theorem db_mtime_total_and_fallback (hashHex : String → String)
    (total : Nat) (fp e : String) (r : Except String ℚ) :
    (∃ n : Int, _db_mtime r = n) ∧
    _db_mtime (Except.error e) = 0 ∧
    httpDate (_db_mtime (Except.error e)) =
      "Thu, 01 Jan 1970 00:00:00 GMT" ∧
    _etag_for_list hashHex total (_db_mtime (Except.error e)) fp =
      _etag_for_list hashHex total 0 fp := by
  refine ⟨⟨_db_mtime r, rfl⟩, rfl, ?_, rfl⟩
  show httpDate 0 = "Thu, 01 Jan 1970 00:00:00 GMT"
  decide

end AppExplorer
